import Mathlib

/-!
Shallow embedding of the quorum-ack tracker (`server/quorum_ack_tracker.go`)
and the client shard manager (`oxia/internal/shard_manager.go`) of this
repository, together with theorems settling the specification claims.

Modelling conventions:
* Go `int64` offsets are `Int` (no claim touches 64-bit overflow).
* Go `uint32` values are `Nat` with explicit `% 4294967296` wherever the Go
  code performs `uint32` arithmetic or casts (`replicationFactor-1`,
  `uint32(cursorIdxGenerator)`, `uint32(e.Count())`).
* Go maps become association lists with `mapLookup` / `mapInsert` /
  `mapErase`; `mapInsert` overwrites in place, `mapErase` removes the key.
* Closures are identified by a caller-chosen `Nat` id; an invocation of a
  waiter closure with result `r` is recorded by appending `(id, r)` to the
  `fired` log of the state, so "invoked exactly once / with success" is an
  assertion about that log.
* `Broadcast` on the head-offset condition has no state of its own; we count
  the calls in `broadcasts`.
-/

/-- Modelled from the spec: `server/util.BitSet` is not part of `src/`.
Per §4.A it is a fixed-capacity bit set with `Set i` (idempotent) and
`Count`; a `Finset ℕ` of set bit positions realises exactly that. -/
abbrev BitSet := Finset Nat

/-- Association-list lookup, first match wins (Go map read). -/
def mapLookup {α β : Type} [DecidableEq α] (m : List (α × β)) (k : α) : Option β :=
  match m with
  | [] => none
  | p :: rest => if p.1 = k then some p.2 else mapLookup rest k

/-- Association-list insert/overwrite (Go `m[k] = v`): replaces the first
binding of `k` in place, otherwise appends. -/
def mapInsert {α β : Type} [DecidableEq α] (m : List (α × β)) (k : α) (v : β) :
    List (α × β) :=
  match m with
  | [] => [(k, v)]
  | p :: rest => if p.1 = k then (k, v) :: rest else p :: mapInsert rest k v

/-- Association-list delete (Go `delete(m, k)`). -/
def mapErase {α β : Type} [DecidableEq α] (m : List (α × β)) (k : α) :
    List (α × β) :=
  m.filter (fun p => decide (p.1 ≠ k))

/-- Errors surfaced by the tracker (`ErrTooManyCursors`,
`ErrInvalidHeadOffset`, `common.ErrorAlreadyClosed`) plus an abstract
cancellation cause carried by a context. -/
inductive GoErr where
  | tooManyCursors
  | invalidHeadOffset
  | alreadyClosed
  | cancelled (cause : Nat)
deriving DecidableEq

/-- One entry of `waitingRequests`: the commit offset the waiter needs and
the id standing for its closure. -/
structure WaitingRequest where
  minOffset : Int
  id : Nat
deriving DecidableEq

/-- State of `quorumAckTracker` (the fields of the Go struct), extended with
the `fired` invocation log and the `broadcasts` counter described above. -/
structure QuorumAckTracker where
  waitingRequests : List WaitingRequest
  replicationFactor : Nat
  requiredAcks : Nat
  nextOffset : Int
  headOffset : Int
  commitOffset : Int
  tracker : List (Int × BitSet)
  cursorIdxGenerator : Nat
  closed : Bool
  fired : List (Nat × Option GoErr)
  broadcasts : Nat
deriving DecidableEq

/-- A `cursorAcker`: its immutable index (the back-reference to the tracker
is the explicit state argument of `Ack`). -/
structure CursorAcker where
  cursorIdx : Nat
deriving DecidableEq

/-- Offsets `lo, lo+1, ..., hi` (empty when `hi < lo`); the iteration space
of the Go `for offset := lo; offset <= hi; offset++` loops. -/
def intRange (lo hi : Int) : List Int :=
  (List.range (hi + 1 - lo).toNat).map (fun (i : Nat) => lo + (i : Int))

/-- `NewQuorumAckTracker(replicationFactor, headOffset, commitOffset)`. -/
def NewQuorumAckTracker (replicationFactor : Nat) (headOffset commitOffset : Int) :
    QuorumAckTracker where
  waitingRequests := []
  replicationFactor := replicationFactor
  requiredAcks := replicationFactor / 2
  nextOffset := headOffset
  headOffset := headOffset
  commitOffset := commitOffset
  tracker := (intRange (commitOffset + 1) headOffset).map (fun o => (o, (∅ : BitSet)))
  cursorIdxGenerator := 0
  closed := false
  fired := []
  broadcasts := 0

/-- The drain loop of `notifyCommitOffsetAdvanced`: walks the queue from the
front, popping and firing while `minOffset ≤ commitOffset`, returning at the
first entry with `minOffset > commitOffset`. Yields (remaining queue,
popped entries in pop order). -/
def drainWaiters (commitOffset : Int) :
    List WaitingRequest → List WaitingRequest × List WaitingRequest
  | [] => ([], [])
  | r :: rest =>
    if r.minOffset > commitOffset then (r :: rest, [])
    else
      let p := drainWaiters commitOffset rest
      (p.1, r :: p.2)

/-- `notifyCommitOffsetAdvanced(commitOffset)`: store the new commit offset,
then pop-and-fire the front of `waitingRequests`. -/
def notifyCommitOffsetAdvanced (q : QuorumAckTracker) (commitOffset : Int) :
    QuorumAckTracker :=
  let p := drainWaiters commitOffset q.waitingRequests
  { q with
    commitOffset := commitOffset
    waitingRequests := p.1
    fired := q.fired ++ p.2.map (fun r => (r.id, (none : Option GoErr))) }

/-- `AdvanceHeadOffset(headOffset)`. -/
def AdvanceHeadOffset (q : QuorumAckTracker) (headOffset : Int) : QuorumAckTracker :=
  if headOffset ≤ q.headOffset then q
  else
    let q1 := { q with headOffset := headOffset, broadcasts := q.broadcasts + 1 }
    if q1.requiredAcks = 0 then notifyCommitOffsetAdvanced q1 headOffset
    else { q1 with tracker := mapInsert q1.tracker headOffset (∅ : BitSet) }

/-- `NextOffset()`: atomic add-and-fetch on `nextOffset`. -/
def NextOffset (q : QuorumAckTracker) : QuorumAckTracker × Int :=
  ({ q with nextOffset := q.nextOffset + 1 }, q.nextOffset + 1)

/-- `Close()`. -/
def Close (q : QuorumAckTracker) : QuorumAckTracker × Option GoErr :=
  ({ q with closed := true, broadcasts := q.broadcasts + 1 }, none)

/-- `WaitForCommitOffsetAsync(ctx, offset, closure)` where `id` stands for
the closure. -/
def WaitForCommitOffsetAsync (q : QuorumAckTracker) (offset : Int) (id : Nat) :
    QuorumAckTracker :=
  if q.closed then { q with fired := q.fired ++ [(id, some GoErr.alreadyClosed)] }
  else if q.requiredAcks = 0 ∨ q.commitOffset ≥ offset then
    { q with fired := q.fired ++ [(id, (none : Option GoErr))] }
  else { q with waitingRequests := q.waitingRequests ++ [⟨offset, id⟩] }

/-- `cursorAcker.ack(offset)`: look up the entry, set the cursor's bit, and
on reaching `requiredAcks` (compared through `uint32(e.Count())`) delete the
entry and advance the commit offset. -/
def ackPath (q : QuorumAckTracker) (cursorIdx : Nat) (offset : Int) : QuorumAckTracker :=
  match mapLookup q.tracker offset with
  | none => q
  | some e =>
    let e1 := insert cursorIdx e
    if e1.card % 4294967296 = q.requiredAcks then
      notifyCommitOffsetAdvanced { q with tracker := mapErase q.tracker offset } offset
    else
      { q with tracker := mapInsert q.tracker offset e1 }

/-- `cursorAcker.Ack(offset)`: lock, then the shared ack path. -/
def CursorAcker.Ack (c : CursorAcker) (q : QuorumAckTracker) (offset : Int) :
    QuorumAckTracker :=
  ackPath q c.cursorIdx offset

/-- `NewCursorAcker(ackOffset)`; the guard `uint32(q.cursorIdxGenerator) >=
q.replicationFactor-1` is computed in 32-bit unsigned arithmetic. -/
def NewCursorAcker (q : QuorumAckTracker) (ackOffset : Int) :
    Except GoErr (QuorumAckTracker × CursorAcker) :=
  if q.cursorIdxGenerator % 4294967296 ≥ (q.replicationFactor + 4294967295) % 4294967296 then
    Except.error GoErr.tooManyCursors
  else if ackOffset > q.headOffset then
    Except.error GoErr.invalidHeadOffset
  else
    let idx := q.cursorIdxGenerator
    let q1 := (intRange (q.commitOffset + 1) ackOffset).foldl (fun s o => ackPath s idx o) q
    Except.ok ({ q1 with cursorIdxGenerator := q.cursorIdxGenerator + 1 }, ⟨idx⟩)

/-- The tracker operations a caller can perform on the shared state. -/
inductive Op where
  | advanceHead (h : Int)
  | ackOp (cursorIdx : Nat) (offset : Int)
  | newCursorAcker (ackOffset : Int)
  | close
  | next
  | waitCommitAsync (offset : Int) (id : Nat)

/-- State reached by a `NewCursorAcker` call: the new state on success, the
unchanged state on error. -/
def cursorResultState (q : QuorumAckTracker) :
    Except GoErr (QuorumAckTracker × CursorAcker) → QuorumAckTracker
  | Except.ok p => p.1
  | Except.error _ => q

/-- Effect of one operation on the tracker state (a failed `NewCursorAcker`
leaves the state unchanged). -/
def applyOp (q : QuorumAckTracker) : Op → QuorumAckTracker
  | Op.advanceHead h => AdvanceHeadOffset q h
  | Op.ackOp c o => ackPath q c o
  | Op.newCursorAcker a => cursorResultState q (NewCursorAcker q a)
  | Op.close => (Close q).1
  | Op.next => (NextOffset q).1
  | Op.waitCommitAsync o id => WaitForCommitOffsetAsync q o id

/-- States reachable from a sanely constructed tracker (`commit ≤ head` at
construction, as rebuilt from the WAL) by any sequence of operations. -/
def Reachable (q : QuorumAckTracker) : Prop :=
  ∃ (rf : Nat) (h c : Int) (ops : List Op),
    c ≤ h ∧ q = ops.foldl applyOp (NewQuorumAckTracker rf h c)

/-- One observation made by the `WaitForHeadOffset` loop at the top of an
iteration: the values of `closed` and `headOffset` it reads under the lock. -/
structure HeadView where
  closed : Bool
  headOffset : Int
deriving DecidableEq

/-- Result of running `WaitForHeadOffset` against a finite trace. -/
inductive HeadWaitResult where
  | ret (e : Option GoErr)
  | looping
deriving DecidableEq

/-- `WaitForHeadOffset(ctx, offset)` as a function of the trace of loop
observations: each element pairs the state read at the top of the loop with
the outcome of `waitForHeadOffset.Wait(ctx)` should the loop wait there
(`some e` = cancelled with error `e`, `none` = woken by a broadcast).
`ret e` mirrors the Go return value (`none` = `nil`); `looping` means the
trace ended with the loop still waiting. -/
def WaitForHeadOffset (offset : Int) : List (HeadView × Option GoErr) → HeadWaitResult
  | [] => HeadWaitResult.looping
  | (v, w) :: rest =>
    if v.closed = false ∧ v.headOffset < offset then
      match w with
      | some e => HeadWaitResult.ret (some e)
      | none => WaitForHeadOffset offset rest
    else HeadWaitResult.ret none

/-- Inclusive 32-bit hash interval of a shard assignment. -/
structure HashRange where
  minInclusive : Nat
  maxInclusive : Nat
deriving DecidableEq

/-- One shard assignment held by the shard manager. -/
structure Shard where
  id : Nat
  leader : String
  hashRange : HashRange
deriving DecidableEq

/-- `overlap(a, b)` from the shard manager. -/
def overlap (a b : HashRange) : Bool :=
  !(decide (a.minInclusive > b.maxInclusive) || decide (a.maxInclusive < b.minInclusive))

/-- Body of the `update` loop for one incoming assignment: if its id is
unknown, delete every existing shard whose range overlaps, then insert; a
known id is overwritten in place. (Go map iteration order does not matter
here: the loop deletes exactly the overlapping entries.) -/
def updateOne (shards : List (Nat × Shard)) (u : Shard) : List (Nat × Shard) :=
  let shards1 :=
    if mapLookup shards u.id = none then
      shards.filter (fun p => !overlap u.hashRange p.2.hashRange)
    else shards
  mapInsert shards1 u.id u

/-- `shardManagerImpl.update(updates)`: the incoming batch processed in
order. -/
def shardsUpdate (shards : List (Nat × Shard)) (updates : List Shard) :
    List (Nat × Shard) :=
  updates.foldl updateOne shards

/-! ### Association-list lemmas -/

theorem mapLookup_insert_self {α β : Type} [DecidableEq α] (m : List (α × β)) (k : α) (v : β) :
    mapLookup (mapInsert m k v) k = some v := by
  induction m with
  | nil => simp [mapInsert, mapLookup]
  | cons p rest ih =>
    by_cases h : p.1 = k
    · simp [mapInsert, h, mapLookup]
    · simp [mapInsert, h, mapLookup, ih]

theorem mapLookup_insert_ne {α β : Type} [DecidableEq α] (m : List (α × β)) (k k' : α) (v : β)
    (h : k' ≠ k) : mapLookup (mapInsert m k v) k' = mapLookup m k' := by
  induction m with
  | nil => simp [mapInsert, mapLookup, Ne.symm h]
  | cons p rest ih =>
    by_cases hp : p.1 = k
    · subst hp
      simp [mapInsert, mapLookup, Ne.symm h]
    · simp [mapInsert, hp, mapLookup, ih]

theorem mapInsert_lookup_eq {α β : Type} [DecidableEq α] (m : List (α × β)) (k : α) (v : β)
    (h : mapLookup m k = some v) : mapInsert m k v = m := by
  induction m with
  | nil => simp [mapLookup] at h
  | cons p rest ih =>
    by_cases hp : p.1 = k
    · simp [mapLookup, hp] at h
      obtain ⟨a, b⟩ := p
      simp only at hp
      subst hp
      simp [mapLookup] at h
      simp [mapInsert, h]
    · simp [mapLookup, hp] at h
      simp [mapInsert, hp, ih h]

theorem mapLookup_erase_self {α β : Type} [DecidableEq α] (m : List (α × β)) (k : α) :
    mapLookup (mapErase m k) k = none := by
  induction m with
  | nil => simp [mapErase, mapLookup]
  | cons p rest ih =>
    by_cases hp : p.1 = k
    · simpa [mapErase, hp] using ih
    · simpa [mapErase, mapLookup, hp] using ih

theorem mapLookup_erase_ne {α β : Type} [DecidableEq α] (m : List (α × β)) (k k' : α)
    (h : k' ≠ k) : mapLookup (mapErase m k) k' = mapLookup m k' := by
  induction m with
  | nil => simp [mapErase, mapLookup]
  | cons p rest ih =>
    by_cases hp : p.1 = k
    · have hpk' : ¬p.1 = k' := by rw [hp]; exact Ne.symm h
      have he : mapErase (p :: rest) k = mapErase rest k := by
        simp [mapErase, List.filter_cons, hp]
      rw [he, ih]
      simp [mapLookup, hpk']
    · have he : mapErase (p :: rest) k = p :: mapErase rest k := by
        simp [mapErase, List.filter_cons, hp]
      rw [he]
      by_cases hp' : p.1 = k'
      · simp [mapLookup, hp']
      · simp [mapLookup, hp', ih]

theorem mem_mapInsert {α β : Type} [DecidableEq α] {m : List (α × β)} {k : α} {v : β}
    {p : α × β} (h : p ∈ mapInsert m k v) : p = (k, v) ∨ p ∈ m := by
  induction m with
  | nil => simpa [mapInsert] using h
  | cons q rest ih =>
    by_cases hq : q.1 = k
    · simp [mapInsert, hq] at h
      rcases h with h | h
      · exact Or.inl h
      · exact Or.inr (List.mem_cons_of_mem _ h)
    · simp [mapInsert, hq] at h
      rcases h with h | h
      · exact Or.inr (by simp [h])
      · rcases ih h with h' | h'
        · exact Or.inl h'
        · exact Or.inr (List.mem_cons_of_mem _ h')

theorem mem_mapErase {α β : Type} [DecidableEq α] {m : List (α × β)} {k : α}
    {p : α × β} (h : p ∈ mapErase m k) : p ∈ m :=
  List.mem_of_mem_filter h

theorem mapLookup_mem {α β : Type} [DecidableEq α] {m : List (α × β)} {k : α} {v : β}
    (h : mapLookup m k = some v) : (k, v) ∈ m := by
  induction m with
  | nil => simp [mapLookup] at h
  | cons p rest ih =>
    by_cases hp : p.1 = k
    · simp [mapLookup, hp] at h
      obtain ⟨a, b⟩ := p
      simp only at hp
      subst hp
      simp at h
      simp [h]
    · simp [mapLookup, hp] at h
      exact List.mem_cons_of_mem _ (ih h)

/-! ### Drain-loop and range lemmas -/

theorem drainWaiters_eq (c : Int) (l : List WaitingRequest) :
    drainWaiters c l =
      (l.dropWhile (fun r => decide (r.minOffset ≤ c)),
       l.takeWhile (fun r => decide (r.minOffset ≤ c))) := by
  induction l with
  | nil => simp [drainWaiters]
  | cons r rest ih =>
    by_cases h : r.minOffset > c
    · have hd : decide (r.minOffset ≤ c) = false := by simp; omega
      simp [drainWaiters, h, List.dropWhile, List.takeWhile, hd]
    · have hle : r.minOffset ≤ c := by omega
      have hd : decide (r.minOffset ≤ c) = true := by simpa using hle
      simp [drainWaiters, h, List.dropWhile, List.takeWhile, hd, ih]

theorem mem_intRange {lo hi x : Int} (h : x ∈ intRange lo hi) : lo ≤ x ∧ x ≤ hi := by
  simp only [intRange, List.mem_map, List.mem_range] at h
  obtain ⟨i, hi', rfl⟩ := h
  have h2 := Int.lt_toNat.mp hi'
  omega

/-! ### Field effects of the tracker operations -/

theorem notify_headOffset (q : QuorumAckTracker) (c : Int) :
    (notifyCommitOffsetAdvanced q c).headOffset = q.headOffset := rfl

theorem notify_commitOffset (q : QuorumAckTracker) (c : Int) :
    (notifyCommitOffsetAdvanced q c).commitOffset = c := rfl

theorem notify_tracker (q : QuorumAckTracker) (c : Int) :
    (notifyCommitOffsetAdvanced q c).tracker = q.tracker := rfl

theorem notify_requiredAcks (q : QuorumAckTracker) (c : Int) :
    (notifyCommitOffsetAdvanced q c).requiredAcks = q.requiredAcks := rfl

theorem ackPath_headOffset (q : QuorumAckTracker) (i : Nat) (o : Int) :
    (ackPath q i o).headOffset = q.headOffset := by
  simp only [ackPath]
  split
  · rfl
  · split <;> rfl

theorem ackPath_requiredAcks (q : QuorumAckTracker) (i : Nat) (o : Int) :
    (ackPath q i o).requiredAcks = q.requiredAcks := by
  simp only [ackPath]
  split
  · rfl
  · split <;> rfl

theorem ackPath_commitOffset (q : QuorumAckTracker) (i : Nat) (o : Int) :
    (ackPath q i o).commitOffset = q.commitOffset ∨ (ackPath q i o).commitOffset = o := by
  simp only [ackPath]
  split
  · exact Or.inl rfl
  · split
    · exact Or.inr rfl
    · exact Or.inl rfl

/-! ### The offsets invariant over reachable states -/

/-- Offsets invariant: `commitOffset ≤ headOffset`, and every offset still
being tracked is at most the head offset. -/
def OffsetsInv (q : QuorumAckTracker) : Prop :=
  q.commitOffset ≤ q.headOffset ∧ ∀ p ∈ q.tracker, p.1 ≤ q.headOffset

theorem offsetsInv_new {rf : Nat} {h c : Int} (hch : c ≤ h) :
    OffsetsInv (NewQuorumAckTracker rf h c) := by
  refine ⟨hch, ?_⟩
  intro p hp
  simp only [NewQuorumAckTracker, List.mem_map] at hp
  obtain ⟨o, ho, rfl⟩ := hp
  exact (mem_intRange ho).2

theorem offsetsInv_ackPath {q : QuorumAckTracker} (hq : OffsetsInv q) (i : Nat) (o : Int) :
    OffsetsInv (ackPath q i o) := by
  obtain ⟨h1, h2⟩ := hq
  simp only [ackPath]
  split
  · exact ⟨h1, h2⟩
  next e he =>
    have ho : o ≤ q.headOffset := h2 _ (mapLookup_mem he)
    split
    · refine ⟨ho, ?_⟩
      intro p hp
      exact h2 p (mem_mapErase hp)
    · refine ⟨h1, ?_⟩
      intro p hp
      rcases mem_mapInsert hp with rfl | hp'
      · exact ho
      · exact h2 p hp'

theorem offsetsInv_advance {q : QuorumAckTracker} (hq : OffsetsInv q) (h : Int) :
    OffsetsInv (AdvanceHeadOffset q h) := by
  obtain ⟨h1, h2⟩ := hq
  simp only [AdvanceHeadOffset]
  split
  · exact ⟨h1, h2⟩
  next hle =>
    have hlt : q.headOffset < h := by omega
    split
    · refine ⟨le_refl h, ?_⟩
      intro p hp
      exact le_trans (h2 p hp) (le_of_lt hlt)
    · refine ⟨show q.commitOffset ≤ h by omega, ?_⟩
      intro p hp
      rcases mem_mapInsert hp with rfl | hp'
      · exact le_refl h
      · exact le_trans (h2 p hp') (le_of_lt hlt)

theorem offsetsInv_foldAck {l : List Int} {q : QuorumAckTracker} (hq : OffsetsInv q) (i : Nat) :
    OffsetsInv (l.foldl (fun s o => ackPath s i o) q) := by
  induction l generalizing q with
  | nil => exact hq
  | cons o rest ih => exact ih (offsetsInv_ackPath hq i o)

theorem newCursorAcker_ok_state {q q' : QuorumAckTracker} {a : Int} {ca : CursorAcker}
    (h : NewCursorAcker q a = Except.ok (q', ca)) :
    q' = { (intRange (q.commitOffset + 1) a).foldl
             (fun s o => ackPath s q.cursorIdxGenerator o) q
           with cursorIdxGenerator := q.cursorIdxGenerator + 1 } ∧
    ca = ⟨q.cursorIdxGenerator⟩ := by
  simp only [NewCursorAcker] at h
  split at h
  · cases h
  · split at h
    · cases h
    · simp only [Except.ok.injEq, Prod.mk.injEq] at h
      exact ⟨h.1.symm, h.2.symm⟩

theorem applyOp_newCursorAcker (q : QuorumAckTracker) (a : Int) :
    applyOp q (Op.newCursorAcker a) = cursorResultState q (NewCursorAcker q a) := rfl

theorem offsetsInv_applyOp {q : QuorumAckTracker} (hq : OffsetsInv q) (op : Op) :
    OffsetsInv (applyOp q op) := by
  cases op with
  | advanceHead h => exact offsetsInv_advance hq h
  | ackOp c o => exact offsetsInv_ackPath hq c o
  | newCursorAcker a =>
    rw [applyOp_newCursorAcker]
    cases hres : NewCursorAcker q a with
    | error e => exact hq
    | ok p =>
      obtain ⟨p1, p2⟩ := p
      obtain ⟨hq', _⟩ := newCursorAcker_ok_state hres
      show OffsetsInv p1
      subst hq'
      have F := offsetsInv_foldAck (l := intRange (q.commitOffset + 1) a) hq q.cursorIdxGenerator
      exact ⟨F.1, F.2⟩
  | close => exact ⟨hq.1, hq.2⟩
  | next => exact ⟨hq.1, hq.2⟩
  | waitCommitAsync o id =>
    show OffsetsInv (WaitForCommitOffsetAsync q o id)
    simp only [WaitForCommitOffsetAsync]
    split
    · exact ⟨hq.1, hq.2⟩
    · split
      · exact ⟨hq.1, hq.2⟩
      · exact ⟨hq.1, hq.2⟩

theorem offsetsInv_foldOps (ops : List Op) {s : QuorumAckTracker} (hs : OffsetsInv s) :
    OffsetsInv (ops.foldl applyOp s) := by
  induction ops generalizing s with
  | nil => exact hs
  | cons op rest ih => exact ih (offsetsInv_applyOp hs op)

theorem reachable_offsetsInv {q : QuorumAckTracker} (h : Reachable q) : OffsetsInv q := by
  obtain ⟨rf, hh, c, ops, hch, rfl⟩ := h
  exact offsetsInv_foldOps ops (offsetsInv_new hch)

/-! ### Unfolding lemmas for `applyOp` -/

theorem applyOp_advanceHead (q : QuorumAckTracker) (h : Int) :
    applyOp q (Op.advanceHead h) = AdvanceHeadOffset q h := rfl

theorem applyOp_ack (q : QuorumAckTracker) (c : Nat) (o : Int) :
    applyOp q (Op.ackOp c o) = ackPath q c o := rfl

theorem applyOp_close (q : QuorumAckTracker) : applyOp q Op.close = (Close q).1 := rfl

theorem applyOp_next (q : QuorumAckTracker) : applyOp q Op.next = (NextOffset q).1 := rfl

theorem applyOp_wait (q : QuorumAckTracker) (o : Int) (id : Nat) :
    applyOp q (Op.waitCommitAsync o id) = WaitForCommitOffsetAsync q o id := rfl

/-! ### Monotonicity of the offsets under single operations -/

theorem advance_headOffset_ge (q : QuorumAckTracker) (h : Int) :
    q.headOffset ≤ (AdvanceHeadOffset q h).headOffset := by
  simp only [AdvanceHeadOffset]
  split
  · exact le_refl _
  next hle =>
    split
    · exact show q.headOffset ≤ h by omega
    · exact show q.headOffset ≤ h by omega

theorem advance_commitOffset_ge {q : QuorumAckTracker}
    (hinv : q.commitOffset ≤ q.headOffset) (h : Int) :
    q.commitOffset ≤ (AdvanceHeadOffset q h).commitOffset := by
  simp only [AdvanceHeadOffset]
  split
  · exact le_refl _
  next hle =>
    split
    · exact show q.commitOffset ≤ h by omega
    · exact le_refl _

theorem foldAck_headOffset (l : List Int) (q : QuorumAckTracker) (i : Nat) :
    (l.foldl (fun s o => ackPath s i o) q).headOffset = q.headOffset := by
  induction l generalizing q with
  | nil => rfl
  | cons o rest ih => rw [List.foldl_cons, ih, ackPath_headOffset]

theorem foldAck_commitOffset_ge (l : List Int) (q : QuorumAckTracker) (i : Nat) (c0 : Int)
    (hq : c0 ≤ q.commitOffset) (hl : ∀ o ∈ l, c0 ≤ o) :
    c0 ≤ (l.foldl (fun s o => ackPath s i o) q).commitOffset := by
  induction l generalizing q with
  | nil => exact hq
  | cons o rest ih =>
    rw [List.foldl_cons]
    apply ih
    · rcases ackPath_commitOffset q i o with h | h
      · rw [h]; exact hq
      · rw [h]; exact hl o (by simp)
    · intro o' ho'
      exact hl o' (by simp [ho'])

theorem newCursorAcker_commitOffset_ge (q : QuorumAckTracker) (a : Int) :
    q.commitOffset ≤ (applyOp q (Op.newCursorAcker a)).commitOffset := by
  rw [applyOp_newCursorAcker]
  cases hres : NewCursorAcker q a with
  | error e => exact le_refl _
  | ok p =>
    obtain ⟨p1, p2⟩ := p
    obtain ⟨hq', _⟩ := newCursorAcker_ok_state hres
    show q.commitOffset ≤ p1.commitOffset
    subst hq'
    show q.commitOffset ≤
      ((intRange (q.commitOffset + 1) a).foldl
        (fun s o => ackPath s q.cursorIdxGenerator o) q).commitOffset
    apply foldAck_commitOffset_ge _ _ _ _ (le_refl _)
    intro o ho
    have := mem_intRange ho
    omega

theorem newCursorAcker_headOffset_eq (q : QuorumAckTracker) (a : Int) :
    (applyOp q (Op.newCursorAcker a)).headOffset = q.headOffset := by
  rw [applyOp_newCursorAcker]
  cases hres : NewCursorAcker q a with
  | error e => rfl
  | ok p =>
    obtain ⟨p1, p2⟩ := p
    obtain ⟨hq', _⟩ := newCursorAcker_ok_state hres
    show p1.headOffset = q.headOffset
    subst hq'
    show ((intRange (q.commitOffset + 1) a).foldl
        (fun s o => ackPath s q.cursorIdxGenerator o) q).headOffset = q.headOffset
    exact foldAck_headOffset _ q _

theorem applyOp_headOffset_ge (q : QuorumAckTracker) (op : Op) :
    q.headOffset ≤ (applyOp q op).headOffset := by
  cases op with
  | advanceHead h => exact advance_headOffset_ge q h
  | ackOp c o => exact le_of_eq (ackPath_headOffset q c o).symm
  | newCursorAcker a => exact le_of_eq (newCursorAcker_headOffset_eq q a).symm
  | close => exact le_refl _
  | next => exact le_refl _
  | waitCommitAsync o id =>
    show q.headOffset ≤ (WaitForCommitOffsetAsync q o id).headOffset
    simp only [WaitForCommitOffsetAsync]
    split
    · exact le_refl _
    · split
      · exact le_refl _
      · exact le_refl _

/-- C1 counterexample: from the reachable state constructed by
`NewQuorumAckTracker(5, 2, 0)` (so `requiredAcks = 2`) with two cursors
registered, acking offset 2 with both cursors advances `commitOffset` to 2;
then acking offset 1 with both cursors makes its bitset reach
`requiredAcks`, and `notifyCommitOffsetAdvanced(1)` stores 1: `commitOffset`
decreases from 2 to 1 when the ack threshold is crossed out of offset
order. -/
theorem commitOffset_decreases_on_out_of_order_acks :
    (List.foldl applyOp (NewQuorumAckTracker 5 2 0)
      [Op.newCursorAcker 0, Op.newCursorAcker 0, Op.ackOp 0 2, Op.ackOp 1 2]).commitOffset
      = 2 ∧
    (List.foldl applyOp (NewQuorumAckTracker 5 2 0)
      [Op.newCursorAcker 0, Op.newCursorAcker 0, Op.ackOp 0 2, Op.ackOp 1 2,
       Op.ackOp 0 1, Op.ackOp 1 1]).commitOffset = 1 := by
  decide

/-- C1 (amended): in every reachable tracker state, `headOffset` is
non-decreasing under every single operation, and `commitOffset` is
non-decreasing under `AdvanceHeadOffset`, `NewCursorAcker` and `Close`;
under the internal ack path of `CursorAcker.Ack` the commit offset either
stays or becomes the acked offset, so it is non-decreasing whenever the
offset whose bitset reaches `requiredAcks` is at least the current commit
offset (in particular when thresholds are reached in increasing offset
order) — but not in general, see the counterexample. -/
theorem offsets_monotonic_per_op (q : QuorumAckTracker) (hq : Reachable q) :
    (∀ op : Op, q.headOffset ≤ (applyOp q op).headOffset) ∧
    (∀ h : Int, q.commitOffset ≤ (applyOp q (Op.advanceHead h)).commitOffset) ∧
    (∀ a : Int, q.commitOffset ≤ (applyOp q (Op.newCursorAcker a)).commitOffset) ∧
    (q.commitOffset ≤ (applyOp q Op.close).commitOffset) ∧
    (∀ (c : Nat) (o : Int),
      ((applyOp q (Op.ackOp c o)).commitOffset = q.commitOffset ∨
        (applyOp q (Op.ackOp c o)).commitOffset = o) ∧
      (q.commitOffset ≤ o → q.commitOffset ≤ (applyOp q (Op.ackOp c o)).commitOffset)) := by
  have hinv := reachable_offsetsInv hq
  refine ⟨applyOp_headOffset_ge q, ?_, newCursorAcker_commitOffset_ge q, le_refl _, ?_⟩
  · intro h
    exact advance_commitOffset_ge hinv.1 h
  · intro c o
    have hcase := ackPath_commitOffset q c o
    refine ⟨hcase, ?_⟩
    intro hle
    rcases hcase with h | h
    · rw [applyOp_ack, h]
    · rw [applyOp_ack, h]
      exact hle

/-- C1 amended witness: the amended monotonicity at the concrete reachable
state `NewQuorumAckTracker(3, 1, 0)` and the operation
`AdvanceHeadOffset(2)`. -/
theorem offsets_monotonic_per_op_witness :
    (NewQuorumAckTracker 3 1 0).commitOffset ≤
      (applyOp (NewQuorumAckTracker 3 1 0) (Op.advanceHead 2)).commitOffset :=
  (offsets_monotonic_per_op (NewQuorumAckTracker 3 1 0)
    ⟨3, 1, 0, [], by decide, rfl⟩).2.1 2

/-- C2 counterexample: immediately after `NewQuorumAckTracker(3, 0, 0)`
(a construction with `commit = 0 ≤ 0 = head`), `nextOffset` equals
`headOffset`, so `headOffset ≤ nextOffset − 1` is false: the claimed chain
`commitOffset ≤ headOffset ≤ nextOffset − 1` does not hold in the state
immediately after construction. -/
theorem construction_violates_head_le_next_sub_one :
    (NewQuorumAckTracker 3 0 0).commitOffset ≤ (NewQuorumAckTracker 3 0 0).headOffset ∧
    ¬ ((NewQuorumAckTracker 3 0 0).headOffset ≤ (NewQuorumAckTracker 3 0 0).nextOffset - 1) := by
  decide

/-- C2 (amended): in every reachable tracker state — constructed with
`commit ≤ head` and evolved by any sequence of `NextOffset`,
`AdvanceHeadOffset`, `Ack` (and the other) operations —
`commitOffset ≤ headOffset` holds; the `nextOffset − 1` bound of the claim
is dropped, since `nextOffset` is initialized to `headOffset` itself. -/
theorem commitOffset_le_headOffset_invariant (q : QuorumAckTracker) (hq : Reachable q) :
    q.commitOffset ≤ q.headOffset :=
  (reachable_offsetsInv hq).1

/-- C2 amended witness: the invariant evaluated on the concrete reachable
state reached from `NewQuorumAckTracker(3, 0, 0)` by `NextOffset`,
`AdvanceHeadOffset(1)` and an ack. -/
theorem commitOffset_le_headOffset_invariant_witness :
    (List.foldl applyOp (NewQuorumAckTracker 3 0 0)
      [Op.next, Op.advanceHead 1, Op.ackOp 0 1]).commitOffset ≤
    (List.foldl applyOp (NewQuorumAckTracker 3 0 0)
      [Op.next, Op.advanceHead 1, Op.ackOp 0 1]).headOffset :=
  commitOffset_le_headOffset_invariant _
    ⟨3, 0, 0, [Op.next, Op.advanceHead 1, Op.ackOp 0 1], by decide, rfl⟩

/-- C4: for `newCommit` above the current commit offset,
`notifyCommitOffsetAdvanced(newCommit)` stores `newCommit` as the commit
offset, pops exactly the longest front prefix of `waitingRequests` whose
entries have `minOffset ≤ newCommit` and fires each popped closure once with
success in queue order, stopping at the first entry with
`minOffset > newCommit` and leaving the rest of the queue intact in its
original order. -/
theorem notify_drains_fifo_prefix (q : QuorumAckTracker) (newCommit : Int)
    (hgt : q.commitOffset < newCommit) :
    (notifyCommitOffsetAdvanced q newCommit).commitOffset = newCommit ∧
    (notifyCommitOffsetAdvanced q newCommit).waitingRequests =
      q.waitingRequests.dropWhile (fun r => decide (r.minOffset ≤ newCommit)) ∧
    (notifyCommitOffsetAdvanced q newCommit).fired =
      q.fired ++
        (q.waitingRequests.takeWhile (fun r => decide (r.minOffset ≤ newCommit))).map
          (fun r => (r.id, (none : Option GoErr))) := by
  refine ⟨rfl, ?_, ?_⟩ <;>
    simp only [notifyCommitOffsetAdvanced, drainWaiters_eq]

/-- C4 witness: the drain evaluated on a concrete queue
`[(min 1, id 10), (min 3, id 11), (min 2, id 12)]` with `newCommit = 2`:
waiter 10 fires, the scan stops at waiter 11, and waiter 12 stays queued
behind it. -/
theorem notify_drains_fifo_prefix_witness :
    ({ NewQuorumAckTracker 3 0 0 with
        waitingRequests := [⟨1, 10⟩, ⟨3, 11⟩, ⟨2, 12⟩] } : QuorumAckTracker).commitOffset < 2 ∧
    ((notifyCommitOffsetAdvanced
        { NewQuorumAckTracker 3 0 0 with
          waitingRequests := [⟨1, 10⟩, ⟨3, 11⟩, ⟨2, 12⟩] } 2).commitOffset = 2 ∧
      (notifyCommitOffsetAdvanced
        { NewQuorumAckTracker 3 0 0 with
          waitingRequests := [⟨1, 10⟩, ⟨3, 11⟩, ⟨2, 12⟩] } 2).waitingRequests =
        ([⟨1, 10⟩, ⟨3, 11⟩, ⟨2, 12⟩] : List WaitingRequest).dropWhile
          (fun r => decide (r.minOffset ≤ 2)) ∧
      (notifyCommitOffsetAdvanced
        { NewQuorumAckTracker 3 0 0 with
          waitingRequests := [⟨1, 10⟩, ⟨3, 11⟩, ⟨2, 12⟩] } 2).fired =
        [] ++ (([⟨1, 10⟩, ⟨3, 11⟩, ⟨2, 12⟩] : List WaitingRequest).takeWhile
          (fun r => decide (r.minOffset ≤ 2))).map
            (fun r => (r.id, (none : Option GoErr)))) :=
  ⟨by decide, notify_drains_fifo_prefix _ 2 (by decide)⟩

/-- C5: with `requiredAcks = 0`, `AdvanceHeadOffset(h)` for `h` above the
current head offset sets both `headOffset` and `commitOffset` to `h`,
inserts no bitset into the tracker map, and fires with success exactly the
front prefix of `waitingRequests` with `minOffset ≤ h`. -/
theorem advance_rf0_commits_synchronously (q : QuorumAckTracker) (h : Int)
    (hacks : q.requiredAcks = 0) (hh : q.headOffset < h) :
    (AdvanceHeadOffset q h).commitOffset = h ∧
    (AdvanceHeadOffset q h).headOffset = h ∧
    (AdvanceHeadOffset q h).tracker = q.tracker ∧
    (AdvanceHeadOffset q h).waitingRequests =
      q.waitingRequests.dropWhile (fun r => decide (r.minOffset ≤ h)) ∧
    (AdvanceHeadOffset q h).fired =
      q.fired ++
        (q.waitingRequests.takeWhile (fun r => decide (r.minOffset ≤ h))).map
          (fun r => (r.id, (none : Option GoErr))) := by
  have hnot : ¬ h ≤ q.headOffset := by omega
  simp only [AdvanceHeadOffset, hnot, if_false, hacks, notifyCommitOffsetAdvanced,
    drainWaiters_eq, ite_true, ite_false]
  simp

/-- C5 witness: `requiredAcks = 0` (replication factor 1),
`AdvanceHeadOffset(5)` from head 0 with a waiter at `minOffset = 3`. -/
theorem advance_rf0_commits_synchronously_witness :
    ({ NewQuorumAckTracker 1 0 0 with
        waitingRequests := [⟨3, 7⟩] } : QuorumAckTracker).requiredAcks = 0 ∧
    ({ NewQuorumAckTracker 1 0 0 with
        waitingRequests := [⟨3, 7⟩] } : QuorumAckTracker).headOffset < 5 ∧
    ((AdvanceHeadOffset
        { NewQuorumAckTracker 1 0 0 with waitingRequests := [⟨3, 7⟩] } 5).commitOffset = 5 ∧
      (AdvanceHeadOffset
        { NewQuorumAckTracker 1 0 0 with waitingRequests := [⟨3, 7⟩] } 5).headOffset = 5 ∧
      (AdvanceHeadOffset
        { NewQuorumAckTracker 1 0 0 with waitingRequests := [⟨3, 7⟩] } 5).tracker =
        ({ NewQuorumAckTracker 1 0 0 with
            waitingRequests := [⟨3, 7⟩] } : QuorumAckTracker).tracker ∧
      (AdvanceHeadOffset
        { NewQuorumAckTracker 1 0 0 with waitingRequests := [⟨3, 7⟩] } 5).waitingRequests =
        ([⟨3, 7⟩] : List WaitingRequest).dropWhile (fun r => decide (r.minOffset ≤ 5)) ∧
      (AdvanceHeadOffset
        { NewQuorumAckTracker 1 0 0 with waitingRequests := [⟨3, 7⟩] } 5).fired =
        [] ++ (([⟨3, 7⟩] : List WaitingRequest).takeWhile
          (fun r => decide (r.minOffset ≤ 5))).map (fun r => (r.id, (none : Option GoErr)))) :=
  ⟨by decide, by decide,
    advance_rf0_commits_synchronously _ 5 (by decide) (by decide)⟩

/-- C8: `Close()` sets `closed`, broadcasts the head-offset condition once,
returns success, and leaves every other component of the state unchanged:
the waiter queue is not drained, no waiter closure is invoked (the `fired`
log is unchanged), and the offsets and the tracker map are unmodified. -/
theorem close_sets_closed_only (q : QuorumAckTracker) :
    Close q = ({ q with closed := true, broadcasts := q.broadcasts + 1 }, none) ∧
    (Close q).1.waitingRequests = q.waitingRequests ∧
    (Close q).1.fired = q.fired ∧
    (Close q).1.commitOffset = q.commitOffset ∧
    (Close q).1.headOffset = q.headOffset ∧
    (Close q).1.nextOffset = q.nextOffset ∧
    (Close q).1.tracker = q.tracker ∧
    (Close q).1.cursorIdxGenerator = q.cursorIdxGenerator ∧
    (Close q).1.closed = true ∧
    (Close q).1.broadcasts = q.broadcasts + 1 ∧
    (Close q).2 = none :=
  ⟨rfl, rfl, rfl, rfl, rfl, rfl, rfl, rfl, rfl, rfl, rfl⟩

/-- C3 counterexample: with the tracker already closed and
`headOffset = 0 < 5`, the loop condition `!closed && headOffset < offset`
is false, so `WaitForHeadOffset` returns `nil` (success) — not the
AlreadyClosed error the claim requires. -/
theorem waitForHeadOffset_closed_returns_nil :
    WaitForHeadOffset 5 [({ closed := true, headOffset := 0 }, none)] =
      HeadWaitResult.ret none ∧
    WaitForHeadOffset 5 [({ closed := true, headOffset := 0 }, none)] ≠
      HeadWaitResult.ret (some GoErr.alreadyClosed) := by
  decide

/-- C3 (amended): `WaitForHeadOffset(ctx, x)` loops while the tracker is not
closed and `headOffset < x`; it returns success (`nil`) — not the
AlreadyClosed error — as soon as it observes the tracker closed or
`headOffset ≥ x`, and it returns the cancellation cause if the wait is
cancelled while the loop condition still holds. -/
theorem waitForHeadOffset_loop_behavior (offset : Int) :
    (∀ (v : HeadView) (w : Option GoErr) (rest : List (HeadView × Option GoErr)),
      (v.closed = true ∨ offset ≤ v.headOffset) →
        WaitForHeadOffset offset ((v, w) :: rest) = HeadWaitResult.ret none) ∧
    (∀ (v : HeadView) (e : GoErr) (rest : List (HeadView × Option GoErr)),
      v.closed = false → v.headOffset < offset →
        WaitForHeadOffset offset ((v, some e) :: rest) = HeadWaitResult.ret (some e)) ∧
    (∀ trace : List (HeadView × Option GoErr),
      (∀ p ∈ trace, p.1.closed = false ∧ p.1.headOffset < offset ∧ p.2 = none) →
        WaitForHeadOffset offset trace = HeadWaitResult.looping) := by
  refine ⟨?_, ?_, ?_⟩
  · intro v w rest hvo
    have hneg : ¬ (v.closed = false ∧ v.headOffset < offset) := by
      rintro ⟨h1, h2⟩
      rcases hvo with h | h
      · rw [h1] at h
        cases h
      · omega
    simp only [WaitForHeadOffset]
    rw [if_neg hneg]
  · intro v e rest h1 h2
    simp only [WaitForHeadOffset]
    rw [if_pos ⟨h1, h2⟩]
  · intro trace htr
    induction trace with
    | nil => rfl
    | cons p rest ih =>
      obtain ⟨pv, pw⟩ := p
      obtain ⟨h1, h2, h3⟩ := htr _ (List.mem_cons_self _ _)
      simp only at h3
      subst h3
      simp only [WaitForHeadOffset]
      rw [if_pos ⟨h1, h2⟩]
      show WaitForHeadOffset offset rest = HeadWaitResult.looping
      exact ih (fun p hp => htr p (List.mem_cons_of_mem _ hp))

/-- C3 amended witness: a trace whose first observation already has
`headOffset = 7 ≥ 5` returns success immediately. -/
theorem waitForHeadOffset_loop_behavior_witness :
    WaitForHeadOffset 5 [({ closed := false, headOffset := 7 }, none)] =
      HeadWaitResult.ret none :=
  (waitForHeadOffset_loop_behavior 5).1 ⟨false, 7⟩ none [] (Or.inr (by decide))

/-- C6: for a tracker whose `uint32` fields are in range (`1 ≤
replicationFactor < 2^32`, generator below `2^32`, the regime in which the
Go `uint32` arithmetic agrees with plain arithmetic; `replicationFactor = 0`
is the underflow case treated separately), `NewCursorAcker(ackOffset)`
returns TooManyCursors iff `cursorIdxGenerator ≥ replicationFactor − 1`;
otherwise it returns InvalidHeadOffset iff `ackOffset > headOffset`;
otherwise it succeeds, assigns the next index (incrementing the generator),
and applies the same ack path as `Ack` with that index to every offset in
`(commitOffset, ackOffset]` before returning. -/
theorem newCursorAcker_contract (q : QuorumAckTracker) (a : Int)
    (hrf1 : 1 ≤ q.replicationFactor) (hrf2 : q.replicationFactor < 4294967296)
    (hgen : q.cursorIdxGenerator < 4294967296) :
    (NewCursorAcker q a = Except.error GoErr.tooManyCursors ↔
      q.replicationFactor - 1 ≤ q.cursorIdxGenerator) ∧
    (q.cursorIdxGenerator < q.replicationFactor - 1 →
      (NewCursorAcker q a = Except.error GoErr.invalidHeadOffset ↔ q.headOffset < a)) ∧
    (q.cursorIdxGenerator < q.replicationFactor - 1 → a ≤ q.headOffset →
      NewCursorAcker q a =
        Except.ok
          ({ (intRange (q.commitOffset + 1) a).foldl
               (fun s o => CursorAcker.Ack ⟨q.cursorIdxGenerator⟩ s o) q
             with cursorIdxGenerator := q.cursorIdxGenerator + 1 },
           ⟨q.cursorIdxGenerator⟩)) := by
  have hg : q.cursorIdxGenerator % 4294967296 = q.cursorIdxGenerator :=
    Nat.mod_eq_of_lt hgen
  have hr : (q.replicationFactor + 4294967295) % 4294967296 = q.replicationFactor - 1 := by
    omega
  by_cases hguard : q.replicationFactor - 1 ≤ q.cursorIdxGenerator
  · have hres : NewCursorAcker q a = Except.error GoErr.tooManyCursors := by
      simp only [NewCursorAcker, hg, hr, ge_iff_le]
      rw [if_pos hguard]
    refine ⟨⟨fun _ => hguard, fun _ => hres⟩, ?_, ?_⟩
    · intro hlt
      omega
    · intro hlt
      omega
  · have hlt' : q.cursorIdxGenerator < q.replicationFactor - 1 := by omega
    by_cases hao : q.headOffset < a
    · have hres : NewCursorAcker q a = Except.error GoErr.invalidHeadOffset := by
        simp only [NewCursorAcker, hg, hr, ge_iff_le]
        rw [if_neg hguard, if_pos hao]
      refine ⟨?_, ?_, ?_⟩
      · constructor
        · intro h
          rw [hres] at h
          simp at h
        · intro h
          omega
      · intro _
        exact ⟨fun _ => hao, fun _ => hres⟩
      · intro _ hle
        omega
    · have hres : NewCursorAcker q a =
          Except.ok
            ({ (intRange (q.commitOffset + 1) a).foldl
                 (fun s o => CursorAcker.Ack ⟨q.cursorIdxGenerator⟩ s o) q
               with cursorIdxGenerator := q.cursorIdxGenerator + 1 },
             ⟨q.cursorIdxGenerator⟩) := by
        simp only [NewCursorAcker, hg, hr, ge_iff_le]
        rw [if_neg hguard, if_neg hao]
        rfl
      refine ⟨?_, ?_, ?_⟩
      · constructor
        · intro h
          rw [hres] at h
          simp at h
        · intro h
          omega
      · intro _
        constructor
        · intro h
          rw [hres] at h
          simp at h
        · intro h
          exact absurd h hao
      · intro _ _
        exact hres

/-- C6 witness: the success case at the concrete tracker
`NewQuorumAckTracker(3, 1, 0)` with `ackOffset = 1`. -/
theorem newCursorAcker_contract_witness :
    NewCursorAcker (NewQuorumAckTracker 3 1 0) 1 =
      Except.ok
        ({ (intRange ((NewQuorumAckTracker 3 1 0).commitOffset + 1) 1).foldl
             (fun s o =>
               CursorAcker.Ack ⟨(NewQuorumAckTracker 3 1 0).cursorIdxGenerator⟩ s o)
             (NewQuorumAckTracker 3 1 0)
           with cursorIdxGenerator := (NewQuorumAckTracker 3 1 0).cursorIdxGenerator + 1 },
         ⟨(NewQuorumAckTracker 3 1 0).cursorIdxGenerator⟩) :=
  (newCursorAcker_contract (NewQuorumAckTracker 3 1 0) 1 (by decide) (by decide)
    (by decide)).2.2 (by decide) (by decide)

/-! ### Idempotence of the ack path -/

/-- After cursor `c` has acked offset `o`, any bitset still tracked for `o`
contains bit `c` and its (uint32) count is away from the ack threshold. -/
def AckedPred (c : Nat) (o : Int) (q : QuorumAckTracker) : Prop :=
  ∀ e, mapLookup q.tracker o = some e →
    c ∈ e ∧ e.card % 4294967296 ≠ q.requiredAcks

theorem ackPath_lookup_ne (q : QuorumAckTracker) (d : Nat) (o' o : Int) (h : o ≠ o') :
    mapLookup (ackPath q d o').tracker o = mapLookup q.tracker o := by
  simp only [ackPath]
  split
  · rfl
  next e hsome =>
    split
    · show mapLookup (mapErase q.tracker o') o = mapLookup q.tracker o
      exact mapLookup_erase_ne _ _ _ h
    · show mapLookup (mapInsert q.tracker o' (insert d e)) o = mapLookup q.tracker o
      exact mapLookup_insert_ne _ _ _ _ h

theorem ackPath_establishes (q : QuorumAckTracker) (c : Nat) (o : Int) :
    AckedPred c o (ackPath q c o) := by
  simp only [AckedPred, ackPath]
  split
  next hnone =>
    intro e he
    rw [hnone] at he
    cases he
  next e hsome =>
    split
    next hcross =>
      intro e' he'
      rw [show (notifyCommitOffsetAdvanced { q with tracker := mapErase q.tracker o } o).tracker
            = mapErase q.tracker o from rfl, mapLookup_erase_self] at he'
      cases he'
    next hcross =>
      intro e' he'
      rw [show ({ q with tracker := mapInsert q.tracker o (insert c e) } :
            QuorumAckTracker).tracker = mapInsert q.tracker o (insert c e) from rfl,
          mapLookup_insert_self] at he'
      cases he'
      exact ⟨Finset.mem_insert_self c e, hcross⟩

theorem ackPath_preserves {c : Nat} {o : Int} {q : QuorumAckTracker}
    (hq : AckedPred c o q) (d : Nat) (o' : Int) :
    AckedPred c o (ackPath q d o') := by
  by_cases ho : o = o'
  · subst ho
    simp only [AckedPred, ackPath]
    split
    next hnone => exact hq
    next e hsome =>
      split
      next hcross =>
        intro e' he'
        rw [show (notifyCommitOffsetAdvanced { q with tracker := mapErase q.tracker o } o).tracker
              = mapErase q.tracker o from rfl, mapLookup_erase_self] at he'
        cases he'
      next hcross =>
        intro e' he'
        rw [show ({ q with tracker := mapInsert q.tracker o (insert d e) } :
              QuorumAckTracker).tracker = mapInsert q.tracker o (insert d e) from rfl,
            mapLookup_insert_self] at he'
        cases he'
        obtain ⟨hc, _⟩ := hq e hsome
        exact ⟨Finset.mem_insert_of_mem hc, hcross⟩
  · intro e' he'
    rw [ackPath_lookup_ne q d o' o ho] at he'
    have h2 := hq e' he'
    rw [ackPath_requiredAcks]
    exact h2

theorem ackPath_noop {c : Nat} {o : Int} {q : QuorumAckTracker} (hq : AckedPred c o q) :
    ackPath q c o = q := by
  simp only [ackPath]
  split
  · rfl
  next e hsome =>
    obtain ⟨hc, hcard⟩ := hq e hsome
    rw [Finset.insert_eq_self.mpr hc, if_neg hcard, mapInsert_lookup_eq _ _ _ hsome]

/-- A sequence of `cursorAcker.ack` calls, given as (cursor index, offset)
pairs applied in order. -/
def applyAcks (q : QuorumAckTracker) (acks : List (Nat × Int)) : QuorumAckTracker :=
  acks.foldl (fun s p => ackPath s p.1 p.2) q

theorem applyAcks_preserves {c : Nat} {o : Int} {q : QuorumAckTracker}
    (hq : AckedPred c o q) (l : List (Nat × Int)) :
    AckedPred c o (applyAcks q l) := by
  induction l generalizing q with
  | nil => exact hq
  | cons p rest ih => exact ih (ackPath_preserves hq p.1 p.2)

/-- C7: the ack path is idempotent — `c.Ack(o)` twice leaves the tracker
exactly as one call does (including the commit offset and the waiter log),
`c.Ack(o)` for an offset absent from the tracker map is a no-op, and any
later duplicate of an earlier (cursor, offset) ack in a sequence of acks
can be removed without changing the final state, so the final
`commitOffset` depends on the distinct (cursor, offset) pairs (in order of
first occurrence), not on their multiplicity. -/
theorem ack_idempotent :
    (∀ (c : CursorAcker) (q : QuorumAckTracker) (o : Int),
      c.Ack (c.Ack q o) o = c.Ack q o) ∧
    (∀ (c : CursorAcker) (q : QuorumAckTracker) (o : Int),
      mapLookup q.tracker o = none → c.Ack q o = q) ∧
    (∀ (q : QuorumAckTracker) (c : Nat) (o : Int) (l1 l2 l3 : List (Nat × Int)),
      applyAcks q (l1 ++ (c, o) :: (l2 ++ (c, o) :: l3)) =
        applyAcks q (l1 ++ (c, o) :: (l2 ++ l3))) := by
  refine ⟨?_, ?_, ?_⟩
  · intro c q o
    exact ackPath_noop (ackPath_establishes q c.cursorIdx o)
  · intro c q o h
    show ackPath q c.cursorIdx o = q
    simp only [ackPath, h]
  · intro q c o l1 l2 l3
    simp only [applyAcks, List.foldl_append, List.foldl_cons]
    congr 1
    exact ackPath_noop
      (applyAcks_preserves (ackPath_establishes (applyAcks q l1) c o) l2)

/-- C7 witness: idempotence at the concrete tracker
`NewQuorumAckTracker(5, 2, 0)`: double-acking offset 1, acking untracked
offset 9, and removing a duplicate ack from a sequence. -/
theorem ack_idempotent_witness :
    (CursorAcker.Ack ⟨0⟩ (CursorAcker.Ack ⟨0⟩ (NewQuorumAckTracker 5 2 0) 1) 1 =
      CursorAcker.Ack ⟨0⟩ (NewQuorumAckTracker 5 2 0) 1) ∧
    (mapLookup (NewQuorumAckTracker 5 2 0).tracker 9 = none ∧
      CursorAcker.Ack ⟨0⟩ (NewQuorumAckTracker 5 2 0) 9 = NewQuorumAckTracker 5 2 0) ∧
    applyAcks (NewQuorumAckTracker 5 2 0) ([(0, 1)] ++ (1, 1) :: ([(0, 2)] ++ (1, 1) :: [])) =
      applyAcks (NewQuorumAckTracker 5 2 0) ([(0, 1)] ++ (1, 1) :: ([(0, 2)] ++ [])) :=
  ⟨ack_idempotent.1 ⟨0⟩ (NewQuorumAckTracker 5 2 0) 1,
   ⟨by decide, ack_idempotent.2.1 ⟨0⟩ (NewQuorumAckTracker 5 2 0) 9 (by decide)⟩,
   ack_idempotent.2.2 (NewQuorumAckTracker 5 2 0) 1 1 [(0, 1)] [(0, 2)] []⟩

/-! ### Lookup through a filtered map (used by the shard-overlap policy) -/

theorem mapLookup_eq_none_of_not_mem {α β : Type} [DecidableEq α] (m : List (α × β)) (k : α)
    (h : k ∉ m.map Prod.fst) : mapLookup m k = none := by
  induction m with
  | nil => rfl
  | cons p rest ih =>
    simp only [List.map_cons, List.mem_cons, not_or] at h
    have hp : ¬ p.1 = k := fun hh => h.1 hh.symm
    simp only [mapLookup, if_neg hp]
    exact ih h.2

theorem mapLookup_filter {α β : Type} [DecidableEq α] (m : List (α × β)) (k : α) (v : β)
    (pred : α × β → Bool) (hnd : (m.map Prod.fst).Nodup) (h : mapLookup m k = some v) :
    mapLookup (m.filter pred) k = if pred (k, v) = true then some v else none := by
  induction m with
  | nil => simp [mapLookup] at h
  | cons p rest ih =>
    obtain ⟨a, b⟩ := p
    simp only [List.map_cons, List.nodup_cons] at hnd
    obtain ⟨hnotin, hnd2⟩ := hnd
    by_cases hak : a = k
    · subst hak
      simp only [mapLookup, if_true] at h
      have hbv : b = v := Option.some.inj (by simpa using h)
      subst hbv
      by_cases hpred : pred (a, b) = true
      · rw [List.filter_cons_of_pos hpred]
        simp [mapLookup, hpred]
      · rw [List.filter_cons_of_neg (by simpa using hpred)]
        rw [if_neg hpred]
        apply mapLookup_eq_none_of_not_mem
        intro hmem
        exact hnotin (((List.filter_sublist rest).map Prod.fst).subset hmem)
    · have h2 : mapLookup rest k = some v := by
        simpa [mapLookup, hak] using h
      by_cases hpred : pred (a, b) = true
      · rw [List.filter_cons_of_pos hpred]
        simp only [mapLookup, if_neg hak]
        exact ih hnd2 h2
      · rw [List.filter_cons_of_neg (by simpa using hpred)]
        exact ih hnd2 h2

/-- C9: the update batch is processed in order; an incoming assignment whose
id is already present overwrites that entry in place and deletes nothing;
an incoming assignment with a fresh id first deletes every existing shard
whose hash range intersects the incoming range (in the sense of `overlap`)
and keeps every non-intersecting shard, then inserts itself. Stated over a
shard map with distinct keys, as a Go map has. -/
theorem shard_update_overlap_policy (shards : List (Nat × Shard)) (u : Shard)
    (rest : List Shard) (id : Nat) (hnd : (shards.map Prod.fst).Nodup) :
    (shardsUpdate shards (u :: rest) = shardsUpdate (updateOne shards u) rest) ∧
    (mapLookup (updateOne shards u) u.id = some u) ∧
    (mapLookup shards u.id ≠ none → ∀ id2 : Nat, id2 ≠ u.id →
      mapLookup (updateOne shards u) id2 = mapLookup shards id2) ∧
    (mapLookup shards u.id = none → id ≠ u.id → ∀ sh : Shard,
      mapLookup shards id = some sh →
      mapLookup (updateOne shards u) id =
        (if overlap u.hashRange sh.hashRange = true then none else some sh)) := by
  refine ⟨rfl, ?_, ?_, ?_⟩
  · simp only [updateOne]
    exact mapLookup_insert_self _ _ _
  · intro hknown id2 hne
    simp only [updateOne]
    rw [if_neg hknown]
    exact mapLookup_insert_ne _ _ _ _ hne
  · intro habs hne sh hsh
    simp only [updateOne]
    rw [if_pos habs, mapLookup_insert_ne _ _ _ _ hne,
      mapLookup_filter shards id sh _ hnd hsh]
    by_cases hov : overlap u.hashRange sh.hashRange = true
    · simp [hov]
    · simp [hov]

/-- C9 witness: updating `[(1, range [0,10]), (2, range [20,30])]` with a
fresh assignment id 3, range [5,15]: shard 1 (overlapping) is deleted. -/
theorem shard_update_overlap_policy_witness :
    mapLookup [((1 : Nat), (⟨1, "a", ⟨0, 10⟩⟩ : Shard)), (2, ⟨2, "b", ⟨20, 30⟩⟩)]
      (⟨3, "c", ⟨5, 15⟩⟩ : Shard).id = none ∧
    (1 : Nat) ≠ (⟨3, "c", ⟨5, 15⟩⟩ : Shard).id ∧
    mapLookup [((1 : Nat), (⟨1, "a", ⟨0, 10⟩⟩ : Shard)), (2, ⟨2, "b", ⟨20, 30⟩⟩)] 1 =
      some ⟨1, "a", ⟨0, 10⟩⟩ ∧
    mapLookup
      (updateOne [((1 : Nat), (⟨1, "a", ⟨0, 10⟩⟩ : Shard)), (2, ⟨2, "b", ⟨20, 30⟩⟩)]
        ⟨3, "c", ⟨5, 15⟩⟩) 1 =
      (if overlap (⟨3, "c", ⟨5, 15⟩⟩ : Shard).hashRange (⟨1, "a", ⟨0, 10⟩⟩ : Shard).hashRange
          = true
       then none else some ⟨1, "a", ⟨0, 10⟩⟩) :=
  ⟨rfl, by decide,
   rfl,
   (shard_update_overlap_policy
      [((1 : Nat), (⟨1, "a", ⟨0, 10⟩⟩ : Shard)), (2, ⟨2, "b", ⟨20, 30⟩⟩)]
      ⟨3, "c", ⟨5, 15⟩⟩ [] 1 (by decide)).2.2.2 rfl (by decide) ⟨1, "a", ⟨0, 10⟩⟩ rfl⟩

/-- C10 counterexample: "never returns TooManyCursors no matter how many
cursors have already been registered" fails at exactly one generator value:
with `replicationFactor = 0` the guard compares `uint32(gen) ≥ 2^32 − 1`,
so once 2^32 − 1 cursors have been registered (generator = 4294967295) the
guard fires and TooManyCursors IS returned. -/
theorem rf0_generator_wraparound_counterexample :
    NewCursorAcker
      { NewQuorumAckTracker 0 0 0 with cursorIdxGenerator := 4294967295 } 0 =
      Except.error GoErr.tooManyCursors := rfl

/-- C10 (amended): with `replicationFactor = 0` the guard computes
`replicationFactor − 1` in unsigned 32-bit arithmetic, underflowing to
`2^32 − 1`, so `NewCursorAcker` never returns TooManyCursors unless
`uint32(cursorIdxGenerator)` itself equals `2^32 − 1` (i.e. for any number
of previously registered cursors short of 2^32 − 1); any
`ackOffset ≤ headOffset` then yields a successful registration whose cursor
index is outside the index range `[0, replicationFactor − 1)`, which is
empty. -/
theorem rf0_underflow_no_cursor_limit (q : QuorumAckTracker) (a : Int)
    (hrf : q.replicationFactor = 0)
    (hgen : q.cursorIdxGenerator % 4294967296 ≠ 4294967295) :
    NewCursorAcker q a ≠ Except.error GoErr.tooManyCursors ∧
    (a ≤ q.headOffset →
      NewCursorAcker q a =
        Except.ok
          ({ (intRange (q.commitOffset + 1) a).foldl
               (fun s o => ackPath s q.cursorIdxGenerator o) q
             with cursorIdxGenerator := q.cursorIdxGenerator + 1 },
           ⟨q.cursorIdxGenerator⟩) ∧
      ¬ (q.cursorIdxGenerator < q.replicationFactor - 1)) := by
  have hmod : q.cursorIdxGenerator % 4294967296 < 4294967296 :=
    Nat.mod_lt _ (by norm_num)
  have hguard : ¬ (q.cursorIdxGenerator % 4294967296 ≥
      (q.replicationFactor + 4294967295) % 4294967296) := by
    rw [hrf]
    omega
  constructor
  · intro h
    simp only [NewCursorAcker] at h
    rw [if_neg hguard] at h
    split at h
    · simp at h
    · simp at h
  · intro hle
    refine ⟨?_, ?_⟩
    · simp only [NewCursorAcker]
      rw [if_neg hguard, if_neg (by omega : ¬ a > q.headOffset)]
    · rw [hrf]
      omega

/-- C10 amended witness: `replicationFactor = 0`, seven cursors already
registered, `ackOffset = 0 = headOffset`: registration still succeeds. -/
theorem rf0_underflow_no_cursor_limit_witness :
    NewCursorAcker { NewQuorumAckTracker 0 0 0 with cursorIdxGenerator := 7 } 0 ≠
      Except.error GoErr.tooManyCursors ∧
    NewCursorAcker { NewQuorumAckTracker 0 0 0 with cursorIdxGenerator := 7 } 0 =
      Except.ok
        ({ (intRange
              (({ NewQuorumAckTracker 0 0 0 with
                  cursorIdxGenerator := 7 } : QuorumAckTracker).commitOffset + 1) 0).foldl
             (fun s o => ackPath s 7 o)
             { NewQuorumAckTracker 0 0 0 with cursorIdxGenerator := 7 }
           with cursorIdxGenerator := 8 },
         ⟨7⟩) :=
  ⟨(rf0_underflow_no_cursor_limit
      { NewQuorumAckTracker 0 0 0 with cursorIdxGenerator := 7 } 0 rfl (by decide)).1,
   ((rf0_underflow_no_cursor_limit
      { NewQuorumAckTracker 0 0 0 with cursorIdxGenerator := 7 } 0 rfl (by decide)).2
      (by decide)).1⟩
